import Mathlib

/-!
Verification of the sentix-nlp article collection pipeline.

Shallow embedding of `src/fetch_coindesk_articles.py` (class
`CoindeskArticleFetcher`) and `src/utils.py` (`predict_sentiment`).

Modelling conventions:
* A raw API article (a Python dict) is a `RawArticle` record of optional
  fields; `article.get(K)` is the field itself, `article.get(K, d)` is
  `(field).getD d`.
* The article source (`self.fetch_articles(days_back, batch_size, to_ts)`
  as seen from the collection loop, with `days_back`, the API key and the
  HTTP transport fixed for the run) is abstracted as a function
  `fetchPage : Nat → Option Int → List RawArticle` from the call index
  (the external world may answer differently on every call) and the
  `to_timestamp` bound to the returned page.
* The `while` loop of `fetch_all_articles` is written with a fuel
  parameter; every iteration that does not break appends at least one
  article, so fuel `max_articles + 1` can never run out (the loop exits
  on `len(all_articles) < max_articles` first).
* Alongside the Python state the model records a ghost trace: one
  `IterLog` per request made, holding the `to_timestamp` sent, the page
  received, and `all_articles` / `seen_guids` after the page was
  processed.
-/

/-- One raw article record as returned by the source: a string-keyed map
with no field guaranteed present (`dict.get` semantics). Field names
follow the API schema keys read by the Python code. -/
structure RawArticle where
  ID : Option Int := none
  GUID : Option String := none
  TITLE : Option String := none
  SUBTITLE : Option String := none
  BODY : Option String := none
  PUBLISHED_ON : Option Int := none
  URL : Option String := none
  IMAGE_URL : Option String := none
  AUTHORS : Option String := none
  SOURCE_ID : Option Int := none
  KEYWORDS : Option String := none
  LANG : Option String := none
  UPVOTES : Option Int := none
  DOWNVOTES : Option Int := none
  SCORE : Option Int := none
  SENTIMENT : Option String := none
  STATUS : Option String := none
deriving DecidableEq

/-- The timestamp as read by `article.get("PUBLISHED_ON", 0)`, default 0
(fetch_coindesk_articles.py lines 101-102). -/
def pubOn (a : RawArticle) : Int :=
  a.PUBLISHED_ON.getD 0

/-- The dedup filter of the loop body (lines 83-87): `guid = article.get("GUID")`
then `if guid and guid not in seen_guids` — a missing GUID and the empty
string are both falsy in Python. Returns the unique articles of the batch
in source order together with the updated `seen_guids`. -/
def findUnique (seen : List String) : List RawArticle → List RawArticle × List String
  | [] => ([], seen)
  | a :: rest =>
    match a.GUID with
    | some g =>
      if g ≠ "" ∧ g ∉ seen then
        (a :: (findUnique (g :: seen) rest).1, (findUnique (g :: seen) rest).2)
      else
        findUnique seen rest
    | none => findUnique seen rest

/-- The value `sorted(batch, key=lambda x: x.get("PUBLISHED_ON", 0))[0].get("PUBLISHED_ON", 0)`
(lines 100-102): the minimum of `pubOn` over the batch. -/
def oldestTimestamp : List RawArticle → Int
  | [] => 0
  | a :: rest => rest.foldl (fun m b => min m (pubOn b)) (pubOn a)

/-- The bound update of line 104:
`to_timestamp = oldest_timestamp - 1 if oldest_timestamp > 0 else None`. -/
def nextTs (batch : List RawArticle) : Option Int :=
  if oldestTimestamp batch > 0 then some (oldestTimestamp batch - 1) else none

/-- Ghost record of one loop iteration (one source request): the
`to_timestamp` sent with the request, the page received, and the
`all_articles` / `seen_guids` state right after this page was processed. -/
structure IterLog where
  bound : Option Int
  batch : List RawArticle
  allAfter : List RawArticle
  seenAfter : List String
deriving DecidableEq

/-- The `while` loop of `fetch_all_articles` (lines 74-112), with fuel.
Returns the final `all_articles` (before the `[:max_articles]` cut) and
the request trace. State arguments: fuel, `all_articles`, `seen_guids`,
`to_timestamp`, call index. -/
def fetchLoop (fetchPage : Nat → Option Int → List RawArticle)
    (batch_size max_articles : Nat) :
    Nat → List RawArticle → List String → Option Int → Nat →
    List RawArticle × List IterLog
  | 0, all, _, _, _ => (all, [])
  | fuel + 1, all, seen, toTs, call =>
    if max_articles ≤ all.length then (all, [])
    else
      let batch := fetchPage call toTs
      if batch.isEmpty then (all, [⟨toTs, batch, all, seen⟩])
      else
        let us := findUnique seen batch
        let all2 := all ++ us.1
        if us.1.isEmpty then (all2, [⟨toTs, batch, all2, us.2⟩])
        else
          let newTs := if batch.isEmpty then toTs else nextTs batch
          if batch.length < batch_size then (all2, [⟨toTs, batch, all2, us.2⟩])
          else
            let r := fetchLoop fetchPage batch_size max_articles fuel
                all2 us.2 newTs (call + 1)
            (r.1, ⟨toTs, batch, all2, us.2⟩ :: r.2)

/-- Model of `fetch_all_articles(days_back, batch_size, max_articles)` (lines 69-114):
run the loop from the empty state (`to_timestamp = None`) and return
`all_articles[:max_articles]`. Fuel `max_articles + 1` is enough: each
surviving iteration grows `all_articles` by at least one. -/
def fetch_all_articles (fetchPage : Nat → Option Int → List RawArticle)
    (batch_size max_articles : Nat) : List RawArticle :=
  (fetchLoop fetchPage batch_size max_articles (max_articles + 1) [] [] none 0).1.take
    max_articles

/-- The ghost request trace of the same run of `fetch_all_articles`. -/
def fetch_all_articles_trace (fetchPage : Nat → Option Int → List RawArticle)
    (batch_size max_articles : Nat) : List IterLog :=
  (fetchLoop fetchPage batch_size max_articles (max_articles + 1) [] [] none 0).2

section ScenarioC1

/-- Article `{guid:"a", ts:100}` of the spec's concrete scenario. -/
def artA : RawArticle := { GUID := some "a", PUBLISHED_ON := some 100 }

/-- Article `{guid:"b", ts:90}` of the spec's concrete scenario. -/
def artB : RawArticle := { GUID := some "b", PUBLISHED_ON := some 90 }

/-- Article `{guid:"c", ts:80}` of the spec's concrete scenario. -/
def artC : RawArticle := { GUID := some "c", PUBLISHED_ON := some 80 }

/-- The scenario source: call 1 answers `[a,b]`, call 2 answers `[b,c]`,
call 3 and beyond answer the empty page. -/
def pagesC1 : Nat → Option Int → List RawArticle
  | 0, _ => [artA, artB]
  | 1, _ => [artB, artC]
  | _, _ => []

end ScenarioC1

example : fetch_all_articles pagesC1 2 3 = [artA, artB, artC] := by decide

example : (fetch_all_articles_trace pagesC1 2 3).map IterLog.bound = [none, some 89] := by
  decide

/-- Model of `check_api_key` (lines 23-24): `self.api_key is not None`. The key is
`os.getenv(...)`, i.e. `Option String` (an empty-string key still counts
as present). -/
def check_api_key (api_key : Option String) : Bool :=
  api_key.isSome

/-- Outcome of one HTTP round trip in `fetch_articles` (lines 46-67):
either `requests.get` (or anything else inside the `try`) raises, or a
response arrives with a status code and a body. The body is `none` when
`response.json()` raises (malformed body), otherwise the optional `"Data"`
field (`data.get("Data", [])`). -/
inductive TransportOutcome where
  | exception : TransportOutcome
  | success (status : Nat) (dataField : Option (Option (List RawArticle))) : TransportOutcome
deriving DecidableEq

/-- Model of `fetch_articles` (lines 26-67) together with the ghost fact whether a
network request was issued: a missing API key returns `[]` before any
request; a raised exception, a non-200 status and a malformed body are
all converted to the empty list inside the function. -/
def fetch_articles_run (api_key : Option String) (t : TransportOutcome) :
    List RawArticle × Bool :=
  if check_api_key api_key then
    match t with
    | .exception => ([], true)
    | .success status dataField =>
      if status = 200 then
        match dataField with
        | none => ([], true)
        | some d => (d.getD [], true)
      else ([], true)
  else ([], false)

/-- The list returned by `fetch_articles` (its only non-logging effect). -/
def fetch_articles (api_key : Option String) (t : TransportOutcome) :
    List RawArticle :=
  (fetch_articles_run api_key t).1

/-- One row of the DataFrame built by `process_article_data` (lines 116-149).
`published_date` is the integer argument handed to
`datetime.fromtimestamp(...)` whose `strftime` output is the stored date
string: the formatting is a fixed deterministic function of this integer
(0 is the epoch-zero date), so the model carries the integer itself. -/
structure ProcessedArticle where
  id : Option Int
  guid : Option String
  title : Option String
  subtitle : Option String
  content : String
  published_date : Int
  published_timestamp : Option Int
  url : Option String
  image_url : Option String
  authors : String
  source_id : Option Int
  keywords : String
  language : String
  upvotes : Int
  downvotes : Int
  score : Int
  sentiment : String
  status : String
deriving DecidableEq

/-- The successful body of the `for` loop of `process_article_data`
(lines 123-143): each field is `article.get(KEY)` or
`article.get(KEY, default)`; no `.get` access raises. The one fallible
step, `datetime.fromtimestamp`, is handled in `process_article_data`. -/
def process_one (a : RawArticle) : ProcessedArticle where
  id := a.ID
  guid := a.GUID
  title := a.TITLE
  subtitle := a.SUBTITLE
  content := a.BODY.getD ""
  published_date := a.PUBLISHED_ON.getD 0
  published_timestamp := a.PUBLISHED_ON
  url := a.URL
  image_url := a.IMAGE_URL
  authors := a.AUTHORS.getD ""
  source_id := a.SOURCE_ID
  keywords := a.KEYWORDS.getD ""
  language := a.LANG.getD "EN"
  upvotes := a.UPVOTES.getD 0
  downvotes := a.DOWNVOTES.getD 0
  score := a.SCORE.getD 0
  sentiment := a.SENTIMENT.getD "NEUTRAL"
  status := a.STATUS.getD "ACTIVE"

/-- Model of `process_article_data` (lines 116-149), including the
`try/except` of lines 120 and 145-147: the only statement in the body
that can raise is `datetime.fromtimestamp(article.get("PUBLISHED_ON", 0))`
(dict `.get` never raises and `strftime` is total on a valid datetime),
and it raises exactly when the timestamp lies outside the
platform-dependent range `fromtimestamp` accepts — abstracted here as
the predicate `fmtOk` on the integer timestamp. An accepted article
contributes its row in source order; a rejected one is logged and
skipped (`continue`). -/
def process_article_data (fmtOk : Int → Bool) :
    List RawArticle → List ProcessedArticle
  | [] => []
  | a :: rest =>
    if fmtOk (pubOn a) then process_one a :: process_article_data fmtOk rest
    else process_article_data fmtOk rest

/-- Model of `create_dataset` (lines 158-170): fetch everything, return `None` when
nothing was fetched, otherwise process the articles and return the
DataFrame (saving and logging are side effects outside the model;
`fetch_all_articles` is called with its default `batch_size`, carried
here as the `batch_size` argument of the abstracted source run, and
`fmtOk` is the platform's timestamp acceptance as above). -/
def create_dataset (fmtOk : Int → Bool)
    (fetchPage : Nat → Option Int → List RawArticle)
    (batch_size max_articles : Nat) : Option (List ProcessedArticle) :=
  let articles := fetch_all_articles fetchPage batch_size max_articles
  if articles.isEmpty then none
  else some (process_article_data fmtOk articles)

/-- The batching loop of `predict_sentiment` (utils.py lines 9-22):
`for i in range(0, len(texts), batch_size)` processes the slice
`texts[i:i+batch_size]` each round. The tokenizer→model→argmax pipeline
applied to one batch is abstracted as the per-text label function `f`
mapped over the chunk (the claim's per-text model abstraction). Fuel-based;
fuel `texts.length` is enough whenever `batch_size ≥ 1` (Python's `range`
raises on step 0). -/
def predictLoop (f : α → β) (batch_size : Nat) : Nat → List α → List β
  | _, [] => []
  | 0, _ => []
  | fuel + 1, l => (l.take batch_size).map f ++ predictLoop f batch_size fuel (l.drop batch_size)

/-- Model of `predict_sentiment(texts, model, tokenizer, batch_size)` under the
per-text model abstraction `f`. -/
def predict_sentiment (f : α → β) (batch_size : Nat) (texts : List α) : List β :=
  predictLoop f batch_size texts.length texts

/-- The chunk decomposition performed by the slicing of `predict_sentiment`:
the consecutive slices `texts[i:i+batch_size]`. -/
def chunksOfAux (batch_size : Nat) : Nat → List α → List (List α)
  | _, [] => []
  | 0, _ => []
  | fuel + 1, l => l.take batch_size :: chunksOfAux batch_size fuel (l.drop batch_size)

/-- The chunks `texts[0:bs], texts[bs:2*bs], ...` visited by the loop. -/
def chunksOf (batch_size : Nat) (texts : List α) : List (List α) :=
  chunksOfAux batch_size texts.length texts

example : predict_sentiment (fun n : Nat => n + 1) 2 [1, 2, 3, 4, 5] = [2, 3, 4, 5, 6] := by
  decide

example : chunksOf 2 [1, 2, 3, 4, 5] = [[1, 2], [3, 4], [5]] := by decide

/-- The `to_timestamp` values sent on the successive requests of one
`fetch_all_articles` run. -/
def usedBounds (fetchPage : Nat → Option Int → List RawArticle)
    (batch_size max_articles : Nat) : List (Option Int) :=
  (fetch_all_articles_trace fetchPage batch_size max_articles).map IterLog.bound

/-- The source only returns articles published at or below the supplied
bound (on bounded requests), reading `PUBLISHED_ON` the way the loop
does (default 0). -/
def respectsBounds (fetchPage : Nat → Option Int → List RawArticle) : Prop :=
  ∀ i v a, a ∈ fetchPage i (some v) → pubOn a ≤ v

section ScenarioC2

/-- Article `{guid:"x", ts:1}`: the page minimum is 1, so the computed
next bound `1 - 1 = 0` is sent literally. -/
def artX1 : RawArticle := { GUID := some "x", PUBLISHED_ON := some 1 }

/-- Source for the boundary scenario: call 1 answers a full one-article
page with timestamp 1, every later call answers the empty page. -/
def pagesC2 : Nat → Option Int → List RawArticle
  | 0, _ => [artX1]
  | _, _ => []

end ScenarioC2

example : usedBounds pagesC2 1 5 = [none, some 0] := by decide

section ScenarioC4

/-- Article `{guid:"p", ts:10}`. -/
def artP10 : RawArticle := { GUID := some "p", PUBLISHED_ON := some 10 }

/-- Article `{guid:"q", ts:0}`: its zero timestamp resets the watermark
to `None` mid-run. -/
def artQ0 : RawArticle := { GUID := some "q", PUBLISHED_ON := some 0 }

/-- Article `{guid:"r", ts:100}`. -/
def artR100 : RawArticle := { GUID := some "r", PUBLISHED_ON := some 100 }

/-- Bound-respecting source whose run interleaves a `None` watermark
between two bounded requests: calls answer `[p(10)]`, `[q(0)]`,
`[r(100)]`, `[]`, and every bounded page only carries timestamps at or
below the bound. -/
def pagesC4 : Nat → Option Int → List RawArticle
  | 0, none => [artP10]
  | 1, some v => if 0 ≤ v then [artQ0] else []
  | 2, none => [artR100]
  | _, _ => []

end ScenarioC4

example : usedBounds pagesC4 1 10 = [none, some 9, none, some 99] := by decide

/-! ### Helper lemmas about the dedup filter -/

lemma findUnique_cons_fresh {a : RawArticle} {g : String} {seen : List String}
    {t : List RawArticle} (hg : a.GUID = some g) (h1 : g ≠ "") (h2 : g ∉ seen) :
    findUnique seen (a :: t) =
      (a :: (findUnique (g :: seen) t).1, (findUnique (g :: seen) t).2) := by
  simp [findUnique, hg, h1, h2]

lemma findUnique_cons_stale {a : RawArticle} {seen : List String}
    {t : List RawArticle} (h : ∀ g, a.GUID = some g → g = "" ∨ g ∈ seen) :
    findUnique seen (a :: t) = findUnique seen t := by
  cases hg : a.GUID with
  | none => simp [findUnique, hg]
  | some g =>
    rcases h g hg with he | hs
    · simp [findUnique, hg, he]
    · simp [findUnique, hg, hs]

/-- Case analysis on the head of the batch, packaged for the inductions
below. -/
lemma findUnique_cons_cases (a : RawArticle) (seen : List String) :
    (∃ g, a.GUID = some g ∧ g ≠ "" ∧ g ∉ seen) ∨
      (∀ g, a.GUID = some g → g = "" ∨ g ∈ seen) := by
  by_cases hf : ∃ g, a.GUID = some g ∧ g ≠ "" ∧ g ∉ seen
  · exact Or.inl hf
  · refine Or.inr fun g hg => ?_
    by_contra hcon
    push_neg at hcon
    exact hf ⟨g, hg, hcon.1, hcon.2⟩

lemma findUnique_length (l : List RawArticle) :
    ∀ seen : List String,
      (findUnique seen l).2.length = seen.length + (findUnique seen l).1.length := by
  induction l with
  | nil => intro seen; simp [findUnique]
  | cons a t ih =>
    intro seen
    rcases findUnique_cons_cases a seen with ⟨g, hg, h1, h2⟩ | hst
    · rw [findUnique_cons_fresh hg h1 h2]
      have := ih (g :: seen)
      simp only [List.length_cons] at this ⊢
      omega
    · rw [findUnique_cons_stale hst]
      exact ih seen

lemma findUnique_seen_mono (l : List RawArticle) :
    ∀ seen : List String, ∀ g ∈ seen, g ∈ (findUnique seen l).2 := by
  induction l with
  | nil => intro seen g hgm; simpa [findUnique] using hgm
  | cons a t ih =>
    intro seen g hgm
    rcases findUnique_cons_cases a seen with ⟨g0, hg, h1, h2⟩ | hst
    · rw [findUnique_cons_fresh hg h1 h2]
      exact ih (g0 :: seen) g (List.mem_cons_of_mem _ hgm)
    · rw [findUnique_cons_stale hst]
      exact ih seen g hgm

lemma findUnique_seen_from (l : List RawArticle) :
    ∀ seen : List String, ∀ g ∈ (findUnique seen l).2,
      g ∈ seen ∨ ∃ a ∈ l, a.GUID = some g := by
  induction l with
  | nil => intro seen g hgm; simp [findUnique] at hgm; exact Or.inl hgm
  | cons a t ih =>
    intro seen g hgm
    rcases findUnique_cons_cases a seen with ⟨g0, hg, h1, h2⟩ | hst
    · rw [findUnique_cons_fresh hg h1 h2] at hgm
      rcases ih (g0 :: seen) g hgm with hin | ⟨b, hb, hbg⟩
      · rcases List.mem_cons.mp hin with hEq | hseen
        · exact Or.inr ⟨a, List.mem_cons_self a t, by rw [hg, hEq]⟩
        · exact Or.inl hseen
      · exact Or.inr ⟨b, List.mem_cons_of_mem _ hb, hbg⟩
    · rw [findUnique_cons_stale hst] at hgm
      rcases ih seen g hgm with hseen | ⟨b, hb, hbg⟩
      · exact Or.inl hseen
      · exact Or.inr ⟨b, List.mem_cons_of_mem _ hb, hbg⟩

lemma findUnique_mem_guid (l : List RawArticle) :
    ∀ seen : List String, ∀ a ∈ (findUnique seen l).1,
      ∃ g, a.GUID = some g ∧ g ∈ (findUnique seen l).2 := by
  induction l with
  | nil => intro seen a ha; simp [findUnique] at ha
  | cons b t ih =>
    intro seen a ha
    rcases findUnique_cons_cases b seen with ⟨g0, hg, h1, h2⟩ | hst
    · rw [findUnique_cons_fresh hg h1 h2] at ha ⊢
      rcases List.mem_cons.mp ha with hEq | hmem
      · subst hEq
        exact ⟨g0, hg, findUnique_seen_mono t (g0 :: seen) g0 (List.mem_cons_self _ _)⟩
      · exact ih (g0 :: seen) a hmem
    · rw [findUnique_cons_stale hst] at ha ⊢
      exact ih seen a ha

lemma findUnique_new_not_seen (l : List RawArticle) :
    ∀ seen : List String, ∀ a ∈ (findUnique seen l).1,
      ∀ g, a.GUID = some g → g ∉ seen := by
  induction l with
  | nil => intro seen a ha; simp [findUnique] at ha
  | cons b t ih =>
    intro seen a ha g hguid
    rcases findUnique_cons_cases b seen with ⟨g0, hg, h1, h2⟩ | hst
    · rw [findUnique_cons_fresh hg h1 h2] at ha
      rcases List.mem_cons.mp ha with hEq | hmem
      · subst hEq
        rw [hg] at hguid
        injection hguid with hgg
        rw [← hgg]
        exact h2
      · intro hc
        exact ih (g0 :: seen) a hmem g hguid (List.mem_cons_of_mem _ hc)
    · rw [findUnique_cons_stale hst] at ha
      exact ih seen a ha g hguid

lemma findUnique_guids_nodup (l : List RawArticle) :
    ∀ seen : List String, ((findUnique seen l).1.map RawArticle.GUID).Nodup := by
  induction l with
  | nil => intro seen; simp [findUnique]
  | cons b t ih =>
    intro seen
    rcases findUnique_cons_cases b seen with ⟨g0, hg, h1, h2⟩ | hst
    · rw [findUnique_cons_fresh hg h1 h2]
      refine List.nodup_cons.mpr ⟨?_, ih (g0 :: seen)⟩
      intro hmem
      rcases List.mem_map.mp hmem with ⟨a, ha, haguid⟩
      rw [hg] at haguid
      exact findUnique_new_not_seen t (g0 :: seen) a ha g0 haguid
        (List.mem_cons_self _ _)
    · rw [findUnique_cons_stale hst]
      exact ih seen

lemma findUnique_nodup_seen (l : List RawArticle) :
    ∀ seen : List String, seen.Nodup → (findUnique seen l).2.Nodup := by
  induction l with
  | nil => intro seen h; simpa [findUnique] using h
  | cons b t ih =>
    intro seen h
    rcases findUnique_cons_cases b seen with ⟨g0, hg, h1, h2⟩ | hst
    · rw [findUnique_cons_fresh hg h1 h2]
      exact ih (g0 :: seen) (List.nodup_cons.mpr ⟨h2, h⟩)
    · rw [findUnique_cons_stale hst]
      exact ih seen h

lemma findUnique_stale (l : List RawArticle) :
    ∀ seen : List String,
      (∀ a ∈ l, a.GUID = none ∨ ∃ g, a.GUID = some g ∧ g ∈ seen) →
      findUnique seen l = ([], seen) := by
  induction l with
  | nil => intro seen _; rfl
  | cons b t ih =>
    intro seen h
    have hst : ∀ g, b.GUID = some g → g = "" ∨ g ∈ seen := by
      intro g hg
      rcases h b (List.mem_cons_self _ _) with hn | ⟨g', hg', hmem⟩
      · rw [hg] at hn; exact absurd hn (by simp)
      · rw [hg] at hg'
        injection hg' with hgg
        exact Or.inr (hgg ▸ hmem)
    rw [findUnique_cons_stale hst]
    exact ih seen fun a ha => h a (List.mem_cons_of_mem _ ha)

lemma findUnique_all_fresh (l : List RawArticle) :
    ∀ seen : List String,
      (∀ a ∈ l, ∃ g, a.GUID = some g ∧ g ≠ "" ∧ g ∉ seen) →
      (l.filterMap RawArticle.GUID).Nodup →
      (findUnique seen l).1 = l := by
  induction l with
  | nil => intro seen _ _; rfl
  | cons b t ih =>
    intro seen h hnd
    obtain ⟨g, hg, h1, h2⟩ := h b (List.mem_cons_self _ _)
    rw [findUnique_cons_fresh hg h1 h2]
    have hfm : (b :: t).filterMap RawArticle.GUID = g :: t.filterMap RawArticle.GUID := by
      simp [List.filterMap_cons, hg]
    rw [hfm] at hnd
    have hnd' := List.nodup_cons.mp hnd
    refine congrArg (b :: ·) (ih (g :: seen) ?_ hnd'.2)
    intro a ha
    obtain ⟨g', hg', h1', h2'⟩ := h a (List.mem_cons_of_mem _ ha)
    refine ⟨g', hg', h1', ?_⟩
    intro hc
    rcases List.mem_cons.mp hc with hEq | hseen
    · subst hEq
      exact hnd'.1 (List.mem_filterMap.mpr ⟨a, ha, hg'⟩)
    · exact h2' hseen

/-! ### Helper lemmas about the page minimum -/

lemma foldlMin_le_init (l : List RawArticle) :
    ∀ i : Int, l.foldl (fun m b => min m (pubOn b)) i ≤ i := by
  induction l with
  | nil => intro i; simp
  | cons a t ih =>
    intro i
    simp only [List.foldl_cons]
    exact le_trans (ih _) (min_le_left _ _)

lemma foldlMin_le_mem (l : List RawArticle) :
    ∀ i : Int, ∀ b ∈ l, l.foldl (fun m b => min m (pubOn b)) i ≤ pubOn b := by
  induction l with
  | nil => intro i b hb; simp at hb
  | cons a t ih =>
    intro i b hb
    simp only [List.foldl_cons]
    rcases List.mem_cons.mp hb with hEq | hmem
    · subst hEq
      exact le_trans (foldlMin_le_init t _) (min_le_right _ _)
    · exact ih _ b hmem

lemma foldlMin_cases (l : List RawArticle) :
    ∀ i : Int, l.foldl (fun m b => min m (pubOn b)) i = i ∨
      ∃ b ∈ l, l.foldl (fun m b => min m (pubOn b)) i = pubOn b := by
  induction l with
  | nil => intro i; exact Or.inl rfl
  | cons a t ih =>
    intro i
    simp only [List.foldl_cons]
    rcases ih (min i (pubOn a)) with hEq | ⟨b, hb, hbEq⟩
    · rcases min_choice i (pubOn a) with hm | hm
      · exact Or.inl (by rw [hEq, hm])
      · exact Or.inr ⟨a, List.mem_cons_self _ _, by rw [hEq, hm]⟩
    · exact Or.inr ⟨b, List.mem_cons_of_mem _ hb, hbEq⟩

lemma oldestTimestamp_le (batch : List RawArticle) :
    ∀ a ∈ batch, oldestTimestamp batch ≤ pubOn a := by
  intro a ha
  cases batch with
  | nil => simp at ha
  | cons b t =>
    rcases List.mem_cons.mp ha with hEq | hmem
    · subst hEq
      exact foldlMin_le_init t _
    · exact foldlMin_le_mem t _ a hmem

lemma oldestTimestamp_mem (batch : List RawArticle) (h : batch ≠ []) :
    ∃ a ∈ batch, oldestTimestamp batch = pubOn a := by
  cases batch with
  | nil => exact absurd rfl h
  | cons b t =>
    rcases foldlMin_cases t (pubOn b) with hEq | ⟨a, ha, haEq⟩
    · exact ⟨b, List.mem_cons_self _ _, hEq⟩
    · exact ⟨a, List.mem_cons_of_mem _ ha, haEq⟩

/-! ### Helper lemmas about the collection loop -/

/-- One-step unfolding of the loop body, with the `let`s expanded. -/
lemma fetchLoop_succ (fp : Nat → Option Int → List RawArticle) (bs mx fuel : Nat)
    (all : List RawArticle) (seen : List String) (t : Option Int) (call : Nat) :
    fetchLoop fp bs mx (fuel + 1) all seen t call =
      if mx ≤ all.length then (all, [])
      else if (fp call t).isEmpty then (all, [⟨t, fp call t, all, seen⟩])
      else if (findUnique seen (fp call t)).1.isEmpty then
        (all ++ (findUnique seen (fp call t)).1,
          [⟨t, fp call t, all ++ (findUnique seen (fp call t)).1,
            (findUnique seen (fp call t)).2⟩])
      else if (fp call t).length < bs then
        (all ++ (findUnique seen (fp call t)).1,
          [⟨t, fp call t, all ++ (findUnique seen (fp call t)).1,
            (findUnique seen (fp call t)).2⟩])
      else
        ((fetchLoop fp bs mx fuel (all ++ (findUnique seen (fp call t)).1)
            (findUnique seen (fp call t)).2
            (if (fp call t).isEmpty then t else nextTs (fp call t)) (call + 1)).1,
          ⟨t, fp call t, all ++ (findUnique seen (fp call t)).1,
            (findUnique seen (fp call t)).2⟩ ::
          (fetchLoop fp bs mx fuel (all ++ (findUnique seen (fp call t)).1)
            (findUnique seen (fp call t)).2
            (if (fp call t).isEmpty then t else nextTs (fp call t)) (call + 1)).2) := rfl

/-- The first entry of a loop trace records the bound the loop started
with and the page that request received. -/
lemma fetchLoop_head (fp : Nat → Option Int → List RawArticle) (bs mx : Nat) :
    ∀ (fuel : Nat) (all : List RawArticle) (seen : List String) (t : Option Int)
      (call : Nat) (l : IterLog),
      ((fetchLoop fp bs mx fuel all seen t call).2).head? = some l →
      l.bound = t ∧ l.batch = fp call t := by
  intro fuel all seen t call l h
  cases fuel with
  | zero => simp [fetchLoop] at h
  | succ fuel =>
    rw [fetchLoop_succ] at h
    split_ifs at h <;> simp only [List.head?_nil, List.head?_cons] at h
    · exact absurd h (by simp)
    · injection h with h; subst h; exact ⟨rfl, rfl⟩
    · injection h with h; subst h; exact ⟨rfl, rfl⟩
    · injection h with h; subst h; exact ⟨rfl, rfl⟩
    · injection h with h; subst h; exact ⟨rfl, rfl⟩

/-- The dedup invariant of one loop state: `seen_guids` has exactly one
entry per collected article, every collected article carries a non-null
GUID recorded in `seen_guids`, and no GUID repeats in the collection. -/
def DedupInv (all : List RawArticle) (seen : List String) : Prop :=
  seen.length = all.length ∧ seen.Nodup ∧
    (∀ a ∈ all, ∃ g, a.GUID = some g ∧ g ∈ seen) ∧
    (all.map RawArticle.GUID).Nodup

lemma DedupInv_step (all : List RawArticle) (seen : List String)
    (batch : List RawArticle) (h : DedupInv all seen) :
    DedupInv (all ++ (findUnique seen batch).1) (findUnique seen batch).2 := by
  obtain ⟨hlen, hnd, hmem, hgnd⟩ := h
  refine ⟨?_, findUnique_nodup_seen batch seen hnd, ?_, ?_⟩
  · rw [findUnique_length batch seen, List.length_append]
    omega
  · intro a ha
    rcases List.mem_append.mp ha with hin | hin
    · obtain ⟨g, hg, hgs⟩ := hmem a hin
      exact ⟨g, hg, findUnique_seen_mono batch seen g hgs⟩
    · exact findUnique_mem_guid batch seen a hin
  · rw [List.map_append]
    refine List.Nodup.append hgnd (findUnique_guids_nodup batch seen) ?_
    intro x hx1 hx2
    rcases List.mem_map.mp hx1 with ⟨a, ha, hax⟩
    rcases List.mem_map.mp hx2 with ⟨b, hb, hbx⟩
    obtain ⟨g, hg, hgs⟩ := hmem a ha
    exact findUnique_new_not_seen batch seen b hb g (by rw [hbx, ← hax, hg]) hgs

/-- Every state logged in the loop trace satisfies the dedup invariant,
provided the starting state does. -/
lemma fetchLoop_inv (fp : Nat → Option Int → List RawArticle) (bs mx : Nat) :
    ∀ (fuel : Nat) (all : List RawArticle) (seen : List String) (t : Option Int)
      (call : Nat), DedupInv all seen →
      ∀ l ∈ (fetchLoop fp bs mx fuel all seen t call).2,
        DedupInv l.allAfter l.seenAfter := by
  intro fuel
  induction fuel with
  | zero => intro all seen t call _ l hl; simp [fetchLoop] at hl
  | succ fuel ih =>
    intro all seen t call hInv l hl
    rw [fetchLoop_succ] at hl
    split_ifs at hl
    · simp at hl
    · rw [List.mem_singleton] at hl; subst hl; exact hInv
    · rw [List.mem_singleton] at hl; subst hl; exact DedupInv_step _ _ _ hInv
    · rw [List.mem_singleton] at hl; subst hl; exact DedupInv_step _ _ _ hInv
    · rcases List.mem_cons.mp hl with hEq | hmem
      · subst hEq; exact DedupInv_step _ _ _ hInv
      · exact ih _ _ _ _ (DedupInv_step _ _ _ hInv) l hmem

/-- Consecutive trace entries are linked by the watermark update: the
next request's bound is `nextTs` of the previous page. -/
lemma fetchLoop_chain (fp : Nat → Option Int → List RawArticle) (bs mx : Nat) :
    ∀ (fuel : Nat) (all : List RawArticle) (seen : List String) (t : Option Int)
      (call : Nat),
      List.Chain' (fun l1 l2 => l2.bound = nextTs l1.batch)
        (fetchLoop fp bs mx fuel all seen t call).2 := by
  intro fuel
  induction fuel with
  | zero => intro all seen t call; simp [fetchLoop]
  | succ fuel ih =>
    intro all seen t call
    rw [fetchLoop_succ]
    split_ifs with h1 h2 h3 h4
    · simp
    · simp
    · simp
    · simp
    · refine List.chain'_cons'.mpr ⟨?_, ih _ _ _ _⟩
      intro l2 hl2
      have hh := fetchLoop_head fp bs mx fuel _ _ _ _ l2 (Option.mem_def.mp hl2)
      rw [hh.1]

/-- Bounds actually sent are never negative (a `some` bound is always
`oldest - 1` with `oldest > 0`), given a non-negative starting bound. -/
lemma fetchLoop_bound_nonneg (fp : Nat → Option Int → List RawArticle) (bs mx : Nat) :
    ∀ (fuel : Nat) (all : List RawArticle) (seen : List String) (t : Option Int)
      (call : Nat), (∀ v : Int, t = some v → 0 ≤ v) →
      ∀ l ∈ (fetchLoop fp bs mx fuel all seen t call).2,
        ∀ v : Int, l.bound = some v → 0 ≤ v := by
  intro fuel
  induction fuel with
  | zero => intro all seen t call _ l hl; simp [fetchLoop] at hl
  | succ fuel ih =>
    intro all seen t call ht l hl
    rw [fetchLoop_succ] at hl
    split_ifs at hl with h1 h2 h3 h4
    · simp at hl
    · rw [List.mem_singleton] at hl; subst hl; exact ht
    · rw [List.mem_singleton] at hl; subst hl; exact ht
    · rw [List.mem_singleton] at hl; subst hl; exact ht
    · rcases List.mem_cons.mp hl with hEq | hmem
      · subst hEq; exact ht
      · refine ih _ _ _ _ ?_ l hmem
        intro v hv
        unfold nextTs at hv
        by_cases ho : oldestTimestamp (fp call t) > 0
        · rw [if_pos ho] at hv
          injection hv with hv
          omega
        · rw [if_neg ho] at hv
          exact absurd hv (by simp)

/-- Against a bound-respecting source, each bounded request immediately
following a bounded request strictly decreases the bound. -/
lemma fetchLoop_chain_dec (fp : Nat → Option Int → List RawArticle) (bs mx : Nat)
    (hresp : respectsBounds fp) :
    ∀ (fuel : Nat) (all : List RawArticle) (seen : List String) (t : Option Int)
      (call : Nat),
      List.Chain' (fun l1 l2 => ∀ v w, l1.bound = some v → l2.bound = some w → w < v)
        (fetchLoop fp bs mx fuel all seen t call).2 := by
  intro fuel
  induction fuel with
  | zero => intro all seen t call; simp [fetchLoop]
  | succ fuel ih =>
    intro all seen t call
    rw [fetchLoop_succ]
    split_ifs with h1 h2 h3 h4
    · simp
    · simp
    · simp
    · simp
    · refine List.chain'_cons'.mpr ⟨?_, ih _ _ _ _⟩
      intro l2 hl2 v w hv hw
      have hh := fetchLoop_head fp bs mx fuel _ _ _ _ l2 (Option.mem_def.mp hl2)
      rw [hh.1] at hw
      unfold nextTs at hw
      by_cases ho : oldestTimestamp (fp call t) > 0
      · rw [if_pos ho] at hw
        injection hw with hw
        have hne : fp call t ≠ [] := by
          intro hc
          rw [hc] at h2
          exact h2 rfl
        obtain ⟨a, ha, haEq⟩ := oldestTimestamp_mem (fp call t) hne
        have hle : pubOn a ≤ v := hresp call v a (by rwa [← hv])
        omega
      · rw [if_neg ho] at hw
        exact absurd hw (by simp)

/-- An empty page returned while the loop is still collecting ends the
run at once with the articles collected so far. -/
lemma fetchLoop_empty_page (fp : Nat → Option Int → List RawArticle)
    (bs mx fuel : Nat) (all : List RawArticle) (seen : List String)
    (t : Option Int) (call : Nat)
    (hlt : all.length < mx) (hemp : fp call t = []) :
    fetchLoop fp bs mx (fuel + 1) all seen t call = (all, [⟨t, [], all, seen⟩]) := by
  rw [fetchLoop_succ, if_neg (by omega), hemp]
  simp

/-- A non-empty page whose GUIDs are all null or already seen ends the
run at once, appending nothing. -/
lemma fetchLoop_stale_page (fp : Nat → Option Int → List RawArticle)
    (bs mx fuel : Nat) (all : List RawArticle) (seen : List String)
    (t : Option Int) (call : Nat)
    (hlt : all.length < mx) (hne : fp call t ≠ [])
    (hst : ∀ a ∈ fp call t, a.GUID = none ∨ ∃ g, a.GUID = some g ∧ g ∈ seen) :
    fetchLoop fp bs mx (fuel + 1) all seen t call =
      (all, [⟨t, fp call t, all, seen⟩]) := by
  rw [fetchLoop_succ, if_neg (by omega),
    if_neg (by simpa [List.isEmpty_iff] using hne), findUnique_stale _ _ hst]
  simp

/-- Once enough articles are collected the loop exits immediately,
whatever the fuel. -/
lemma fetchLoop_done (fp : Nat → Option Int → List RawArticle) (bs mx fuel : Nat)
    (all : List RawArticle) (seen : List String) (t : Option Int) (call : Nat)
    (h : mx ≤ all.length) :
    fetchLoop fp bs mx fuel all seen t call = (all, []) := by
  cases fuel with
  | zero => rfl
  | succ fuel => rw [fetchLoop_succ, if_pos h]

/-- Which earlier call each seen GUID came from: the invariant tying
`seen_guids` to the pages of the calls already made. -/
def SeenFrom (fp : Nat → Option Int → List RawArticle)
    (seen : List String) (call : Nat) : Prop :=
  ∀ g ∈ seen, ∃ j, j < call ∧ ∃ t, g ∈ (fp j t).filterMap RawArticle.GUID

/-- Against a source that always answers a full page of fresh non-null
GUIDs, every iteration collects the whole page, so the run collects
`batch_size` articles per call and stops at the first multiple of
`batch_size` reaching `max_articles`: the final pre-cut collection has
`batch_size * ceil(max/batch_size)` articles and the trace has
`ceil(max/batch_size)` entries (counted from the current state). -/
lemma fetchLoop_fresh (fp : Nat → Option Int → List RawArticle) (bs mx : Nat)
    (hbs : 1 ≤ bs)
    (hlen : ∀ i t, (fp i t).length = bs)
    (hguid : ∀ i t a, a ∈ fp i t → ∃ g, a.GUID = some g ∧ g ≠ "")
    (hnd : ∀ i t, ((fp i t).filterMap RawArticle.GUID).Nodup)
    (hfresh : ∀ i t j u g, i ≠ j → g ∈ (fp i t).filterMap RawArticle.GUID →
      g ∉ (fp j u).filterMap RawArticle.GUID) :
    ∀ (fuel : Nat) (all : List RawArticle) (seen : List String) (t : Option Int)
      (call : Nat), SeenFrom fp seen call → all.length < mx →
      mx ≤ all.length + fuel →
      (fetchLoop fp bs mx fuel all seen t call).1.length
          = all.length + bs * ((mx - all.length + bs - 1) / bs) ∧
        (fetchLoop fp bs mx fuel all seen t call).2.length
          = (mx - all.length + bs - 1) / bs := by
  intro fuel
  induction fuel with
  | zero => intro all seen t call _ hlt hfl; exact absurd hfl (by omega)
  | succ fuel ih =>
    intro all seen t call hSeen hlt hfl
    have hne : fp call t ≠ [] := by
      intro hc
      have := hlen call t
      rw [hc] at this
      simp at this
      omega
    have hbatchfresh : ∀ a ∈ fp call t, ∃ g, a.GUID = some g ∧ g ≠ "" ∧ g ∉ seen := by
      intro a ha
      obtain ⟨g, hg, hgne⟩ := hguid call t a ha
      refine ⟨g, hg, hgne, ?_⟩
      intro hc
      obtain ⟨j, hj, u, hmem⟩ := hSeen g hc
      exact hfresh j u call t g (by omega) hmem (List.mem_filterMap.mpr ⟨a, ha, hg⟩)
    have hu : (findUnique seen (fp call t)).1 = fp call t :=
      findUnique_all_fresh _ _ hbatchfresh (hnd call t)
    have hall2 : (all ++ (findUnique seen (fp call t)).1).length = all.length + bs := by
      rw [hu, List.length_append, hlen call t]
    have hSeen2 : SeenFrom fp (findUnique seen (fp call t)).2 (call + 1) := by
      intro g hg
      rcases findUnique_seen_from (fp call t) seen g hg with hold | ⟨a, ha, hag⟩
      · obtain ⟨j, hj, u, hmem⟩ := hSeen g hold
        exact ⟨j, by omega, u, hmem⟩
      · exact ⟨call, by omega, t, List.mem_filterMap.mpr ⟨a, ha, hag⟩⟩
    rw [fetchLoop_succ, if_neg (by omega),
      if_neg (by simpa [List.isEmpty_iff] using hne),
      if_neg (by rw [hu]; simpa [List.isEmpty_iff] using hne),
      if_neg (by rw [hlen call t]; omega)]
    by_cases hdone : mx ≤ all.length + bs
    · rw [fetchLoop_done fp bs mx fuel _ _ _ _ (by rw [hall2]; omega)]
      have hq : (mx - all.length + bs - 1) / bs = 1 := by
        rw [show mx - all.length + bs - 1 = (mx - all.length - 1) + bs from by omega,
          Nat.add_div_right _ (by omega), Nat.div_eq_of_lt (by omega)]
      dsimp only
      rw [hq, Nat.mul_one]
      exact ⟨hall2, rfl⟩
    · have hq : (mx - all.length + bs - 1) / bs
          = ((mx - (all.length + bs)) + bs - 1) / bs + 1 := by
        rw [show mx - all.length + bs - 1
            = (((mx - (all.length + bs)) + bs - 1) + bs) from by omega,
          Nat.add_div_right _ (by omega)]
      obtain ⟨ih1, ih2⟩ := ih (all ++ (findUnique seen (fp call t)).1)
        (findUnique seen (fp call t)).2
        (if (fp call t).isEmpty then t else nextTs (fp call t)) (call + 1)
        hSeen2 (by rw [hall2]; omega) (by rw [hall2]; omega)
      dsimp only
      constructor
      · rw [ih1, hall2, hq, Nat.mul_add, Nat.mul_one]
        ring
      · rw [List.length_cons, ih2, hall2, hq]

/-! ### Helper lemmas about the batch predictor -/

lemma predictLoop_map {α β : Type} (f : α → β) (bs : Nat) (hbs : 1 ≤ bs) :
    ∀ (fuel : Nat) (l : List α), l.length ≤ fuel →
      predictLoop f bs fuel l = l.map f := by
  intro fuel
  induction fuel with
  | zero =>
    intro l hl
    cases l with
    | nil => rfl
    | cons x xs => simp at hl
  | succ fuel ih =>
    intro l hl
    cases l with
    | nil => rfl
    | cons x xs =>
      have hdrop : ((x :: xs).drop bs).length ≤ fuel := by
        rw [List.length_drop]
        simp only [List.length_cons] at hl ⊢
        omega
      rw [predictLoop, ih _ hdrop, ← List.map_append, List.take_append_drop]
      simp

lemma chunksOfAux_cons (bs fuel : Nat) (x : α) (xs : List α) :
    chunksOfAux bs (fuel + 1) (x :: xs)
      = (x :: xs).take bs :: chunksOfAux bs fuel ((x :: xs).drop bs) := by
  rw [chunksOfAux]
  simp

lemma chunksOfAux_eq_map {α β : Type} (f : α → β) (bs : Nat) :
    ∀ (fuel : Nat) (l : List α),
      predictLoop f bs fuel l = ((chunksOfAux bs fuel l).map (List.map f)).flatten := by
  intro fuel
  induction fuel with
  | zero =>
    intro l
    cases l with
    | nil => rfl
    | cons x xs => rfl
  | succ fuel ih =>
    intro l
    cases l with
    | nil => rfl
    | cons x xs =>
      rw [predictLoop, chunksOfAux, List.map_cons, List.flatten_cons, ih]
      · simp
      · simp

lemma chunksOfAux_flatten (bs : Nat) (hbs : 1 ≤ bs) :
    ∀ (fuel : Nat) (l : List α), l.length ≤ fuel →
      (chunksOfAux bs fuel l).flatten = l := by
  intro fuel
  induction fuel with
  | zero =>
    intro l hl
    cases l with
    | nil => rfl
    | cons x xs => simp at hl
  | succ fuel ih =>
    intro l hl
    cases l with
    | nil => rfl
    | cons x xs =>
      have hdrop : ((x :: xs).drop bs).length ≤ fuel := by
        rw [List.length_drop]
        simp only [List.length_cons] at hl ⊢
        omega
      rw [chunksOfAux, List.flatten_cons, ih _ hdrop, List.take_append_drop]
      simp

lemma chunksOfAux_size_le (bs : Nat) :
    ∀ (fuel : Nat) (l : List α), ∀ c ∈ chunksOfAux bs fuel l, c.length ≤ bs := by
  intro fuel
  induction fuel with
  | zero =>
    intro l c hc
    cases l with
    | nil => simp [chunksOfAux] at hc
    | cons x xs => simp [chunksOfAux] at hc
  | succ fuel ih =>
    intro l c hc
    cases l with
    | nil => simp [chunksOfAux] at hc
    | cons x xs =>
      rw [chunksOfAux_cons] at hc
      rcases List.mem_cons.mp hc with hEq | hmem
      · subst hEq
        rw [List.length_take]
        omega
      · exact ih _ c hmem

lemma chunksOfAux_dropLast (bs : Nat) (hbs : 1 ≤ bs) :
    ∀ (fuel : Nat) (l : List α), l.length ≤ fuel →
      ∀ c ∈ (chunksOfAux bs fuel l).dropLast, c.length = bs := by
  intro fuel
  induction fuel with
  | zero =>
    intro l hl c hc
    cases l with
    | nil => simp [chunksOfAux] at hc
    | cons x xs => simp at hl
  | succ fuel ih =>
    intro l hl c hc
    cases l with
    | nil => simp [chunksOfAux] at hc
    | cons x xs =>
      rw [chunksOfAux_cons] at hc
      by_cases hdrop : (x :: xs).drop bs = []
      · rw [hdrop] at hc
        have : chunksOfAux (α := α) bs fuel [] = [] := by
          cases fuel <;> rfl
        rw [this] at hc
        simp at hc
      · have hlong : bs < (x :: xs).length := by
          by_contra hcon
          exact hdrop (List.drop_eq_nil_of_le (by omega))
        have hrest : chunksOfAux bs fuel ((x :: xs).drop bs) ≠ [] := by
          have hdl : 1 ≤ ((x :: xs).drop bs).length := by
            cases hd : (x :: xs).drop bs with
            | nil => exact absurd hd hdrop
            | cons y ys => simp
          cases fuel with
          | zero =>
            exfalso
            rw [List.length_drop] at hdl
            simp only [List.length_cons] at hl hdl
            omega
          | succ fuel =>
            cases hd : (x :: xs).drop bs with
            | nil => exact absurd hd hdrop
            | cons y ys => simp [chunksOfAux]
        rw [List.dropLast_cons_of_ne_nil hrest] at hc
        rcases List.mem_cons.mp hc with hEq | hmem
        · subst hEq
          rw [List.length_take]
          omega
        · refine ih _ ?_ c hmem
          rw [List.length_drop]
          simp only [List.length_cons] at hl ⊢
          omega

/-! ### The claims -/

/-- Claim C1, counterexample: in the spec's concrete scenario
(`days_back=7, batch_size=2, max_articles=3`, pages `[a(100),b(90)]`,
`[b(90),c(80)]`, `[]`) the loop makes only **two** source calls, with
bounds `none` and `89` — the `while len(all_articles) < max_articles`
guard stops the run as soon as the second page brings the count to 3, so
no third request (bound `79`, empty page) is ever made. -/
theorem claim_C1_counterexample :
    usedBounds pagesC1 2 3 = [none, some 89] ∧
      usedBounds pagesC1 2 3 ≠ [none, some 89, some 79] ∧
      (fetch_all_articles_trace pagesC1 2 3).length ≠ 3 := by
  decide

/-- Claim C1, amended: in the scenario the run returns exactly
`[a, b, c]` in order, but makes exactly 2 source calls with upper bounds
`none` and `89`, ending because the collection reached `max_articles`
(the pre-cut collection has length 3). -/
theorem claim_C1_amended :
    fetch_all_articles pagesC1 2 3 = [artA, artB, artC] ∧
      usedBounds pagesC1 2 3 = [none, some 89] ∧
      (fetch_all_articles_trace pagesC1 2 3).length = 2 ∧
      (fetchLoop pagesC1 2 3 4 [] [] none 0).1.length = 3 := by
  decide

/-- Claim C2, counterexample: a full page whose minimum `PUBLISHED_ON`
is 1 computes the next bound `1 - 1 = 0 ≤ 0`, yet the next request is
sent with the literal bound `0`, not with `none` — the code only falls
back to `None` when the page **minimum** is `≤ 0` (`oldest - 1 if
oldest > 0 else None`), not when the computed bound is. -/
theorem claim_C2_counterexample :
    oldestTimestamp (pagesC2 0 none) - 1 ≤ 0 ∧
      usedBounds pagesC2 1 5 = [none, some 0] := by
  decide

/-- Claim C2, amended: for every non-empty page processed by the loop,
the next request's bound is `min(PUBLISHED_ON over the whole page,
default 0) - 1` when that minimum is positive and `none` when the
minimum is `≤ 0`; consequently a literal bound sent upstream is never
negative (though it can be exactly 0, when the page minimum is 1). -/
theorem claim_C2_amended (fetchPage : Nat → Option Int → List RawArticle)
    (batch_size max_articles : Nat) :
    List.Chain'
      (fun l1 l2 => l2.bound =
        if oldestTimestamp l1.batch > 0 then some (oldestTimestamp l1.batch - 1)
        else none)
      (fetch_all_articles_trace fetchPage batch_size max_articles) ∧
    ∀ l ∈ fetch_all_articles_trace fetchPage batch_size max_articles,
      ∀ v : Int, l.bound = some v → 0 ≤ v := by
  constructor
  · exact fetchLoop_chain fetchPage batch_size max_articles
      (max_articles + 1) [] [] none 0
  · intro l hl v hv
    exact fetchLoop_bound_nonneg fetchPage batch_size max_articles
      (max_articles + 1) [] [] none 0 (fun v h => by simp at h) l hl v hv

/-- Witness for the amended claim C2 at the concrete scenario source. -/
theorem claim_C2_amended_witness :
    List.Chain'
      (fun l1 l2 => l2.bound =
        if oldestTimestamp l1.batch > 0 then some (oldestTimestamp l1.batch - 1)
        else none)
      (fetch_all_articles_trace pagesC1 2 3) ∧
    ∀ l ∈ fetch_all_articles_trace pagesC1 2 3,
      ∀ v : Int, l.bound = some v → 0 ≤ v :=
  claim_C2_amended pagesC1 2 3

/-- Claim C3, confirmed: after each processed page (each trace entry) of
any run against any source, `seen_guids` has exactly as many entries as
`all_articles` (and no duplicates), every collected article carries a
non-null GUID recorded in `seen_guids`, and no two collected articles
share a GUID. -/
theorem claim_C3 (fetchPage : Nat → Option Int → List RawArticle)
    (batch_size max_articles : Nat) (l : IterLog)
    (hl : l ∈ fetch_all_articles_trace fetchPage batch_size max_articles) :
    l.seenAfter.length = l.allAfter.length ∧
      l.seenAfter.Nodup ∧
      (∀ a ∈ l.allAfter, ∃ g, a.GUID = some g ∧ g ∈ l.seenAfter) ∧
      (l.allAfter.map RawArticle.GUID).Nodup :=
  fetchLoop_inv fetchPage batch_size max_articles (max_articles + 1) [] [] none 0
    ⟨rfl, List.nodup_nil, by simp, by simp⟩ l hl

/-- Witness for claim C3 at the first trace entry of the concrete
scenario run. -/
theorem claim_C3_witness :
    (IterLog.mk none [artA, artB] [artA, artB] ["b", "a"]).seenAfter.length
        = (IterLog.mk none [artA, artB] [artA, artB] ["b", "a"]).allAfter.length ∧
      (IterLog.mk none [artA, artB] [artA, artB] ["b", "a"]).seenAfter.Nodup ∧
      (∀ a ∈ (IterLog.mk none [artA, artB] [artA, artB] ["b", "a"]).allAfter,
        ∃ g, a.GUID = some g ∧
          g ∈ (IterLog.mk none [artA, artB] [artA, artB] ["b", "a"]).seenAfter) ∧
      ((IterLog.mk none [artA, artB] [artA, artB] ["b", "a"]).allAfter.map
        RawArticle.GUID).Nodup :=
  claim_C3 pagesC1 2 3 (IterLog.mk none [artA, artB] [artA, artB] ["b", "a"])
    (by decide)

/-- The counterexample source of C4 respects bounds (shared by the C4
counterexample and the witness of the amended claim). -/
lemma respectsBounds_pagesC4 : respectsBounds pagesC4 := by
  intro i v a ha
  match i with
  | 0 => simp [pagesC4] at ha
  | 1 =>
    by_cases h0 : (0 : Int) ≤ v
    · rw [show pagesC4 1 (some v) = if 0 ≤ v then [artQ0] else [] from rfl,
        if_pos h0] at ha
      rw [List.mem_singleton] at ha
      subst ha
      simpa [pubOn, artQ0] using h0
    · rw [show pagesC4 1 (some v) = if 0 ≤ v then [artQ0] else [] from rfl,
        if_neg h0] at ha
      simp at ha
  | 2 => simp [pagesC4] at ha
  | (n + 3) => simp [pagesC4] at ha

/-- Claim C4, counterexample: the whole sequence of non-`none` bounds of
a run need not be strictly decreasing even against a bound-respecting
source — a page containing a non-positive timestamp resets the
watermark to `None`, and the following unbounded request can push the
bound back up (here the non-`none` bounds used are `9` then `99`). -/
theorem claim_C4_counterexample :
    respectsBounds pagesC4 ∧
      (usedBounds pagesC4 1 10).filterMap id = [9, 99] ∧
      ¬ List.Chain' (fun x y : Int => y < x) ((usedBounds pagesC4 1 10).filterMap id) :=
  ⟨respectsBounds_pagesC4, by decide, by
    rw [show (usedBounds pagesC4 1 10).filterMap id = [(9 : Int), 99] from by decide]
    simp [List.chain'_cons]⟩

/-- Claim C4, amended: against a bound-respecting source, the bounds are
strictly decreasing between **consecutive** requests whenever both carry
a value: if request k uses bound `v` and request k+1 uses bound `w`,
then `w < v` (the loop takes the minimum over the whole page, which is
`≤ v`, and subtracts 1). The global non-`none` subsequence need not
decrease across an intervening `none` watermark. -/
theorem claim_C4_amended (fetchPage : Nat → Option Int → List RawArticle)
    (batch_size max_articles : Nat) (hresp : respectsBounds fetchPage) :
    List.Chain'
      (fun l1 l2 => ∀ v w : Int, l1.bound = some v → l2.bound = some w → w < v)
      (fetch_all_articles_trace fetchPage batch_size max_articles) :=
  fetchLoop_chain_dec fetchPage batch_size max_articles hresp
    (max_articles + 1) [] [] none 0

/-- Witness for the amended claim C4 at the concrete interleaving
source. -/
theorem claim_C4_amended_witness :
    List.Chain'
      (fun l1 l2 => ∀ v w : Int, l1.bound = some v → l2.bound = some w → w < v)
      (fetch_all_articles_trace pagesC4 1 10) :=
  claim_C4_amended pagesC4 1 10 respectsBounds_pagesC4

/-- Claim C5, confirmed: against a source that answers every call with a
full page of `batch_size` fresh non-null GUIDs, the run terminates with
exactly `max_articles` returned articles, and the loop exits at the
first iteration at which the collection reaches `max_articles` — after
`ceil(max_articles / batch_size)` requests (the trace length). -/
theorem claim_C5 (fetchPage : Nat → Option Int → List RawArticle)
    (batch_size max_articles : Nat)
    (hbs : 1 ≤ batch_size) (hmax : 1 ≤ max_articles)
    (hlen : ∀ i t, (fetchPage i t).length = batch_size)
    (hguid : ∀ i t a, a ∈ fetchPage i t → ∃ g, a.GUID = some g ∧ g ≠ "")
    (hnd : ∀ i t, ((fetchPage i t).filterMap RawArticle.GUID).Nodup)
    (hfresh : ∀ i t j u g, i ≠ j → g ∈ (fetchPage i t).filterMap RawArticle.GUID →
      g ∉ (fetchPage j u).filterMap RawArticle.GUID) :
    (fetch_all_articles fetchPage batch_size max_articles).length = max_articles ∧
      (fetch_all_articles_trace fetchPage batch_size max_articles).length
        = (max_articles + batch_size - 1) / batch_size := by
  obtain ⟨h1, h2⟩ := fetchLoop_fresh fetchPage batch_size max_articles hbs hlen hguid hnd
    hfresh (max_articles + 1) [] [] none 0
    (fun g hg => absurd hg (List.not_mem_nil g))
    (by simpa using hmax) (by simp)
  simp only [List.length_nil, Nat.zero_add, Nat.sub_zero] at h1 h2
  refine ⟨?_, h2⟩
  rw [fetch_all_articles, List.length_take, h1]
  have hdm := Nat.div_add_mod (max_articles + batch_size - 1) batch_size
  have hml : (max_articles + batch_size - 1) % batch_size < batch_size :=
    Nat.mod_lt _ (by omega)
  refine min_eq_left ?_
  generalize hA :
    batch_size * ((max_articles + batch_size - 1) / batch_size) = A at hdm ⊢
  generalize hr : (max_articles + batch_size - 1) % batch_size = r at hdm hml
  omega

section ScenarioC5

/-- The n-th fresh article of the inexhaustible witness source: its GUID
is the string of n copies of `x` (an injective, never-empty family). -/
def artN (n : Nat) : RawArticle :=
  { GUID := some ⟨List.replicate n 'x'⟩, PUBLISHED_ON := some 5 }

/-- Witness source for C5: call i answers the single-article full page
`[artN (i+1)]`, fresh on every call. -/
def pagesC5 : Nat → Option Int → List RawArticle :=
  fun i _ => [artN (i + 1)]

lemma replicate_guid_inj (m n : Nat)
    (h : (⟨List.replicate m 'x'⟩ : String) = ⟨List.replicate n 'x'⟩) : m = n := by
  have hd : List.replicate m 'x' = List.replicate n 'x' := congrArg String.data h
  have hlen := congrArg List.length hd
  simpa using hlen

lemma replicate_guid_ne_empty (n : Nat) :
    (⟨List.replicate (n + 1) 'x'⟩ : String) ≠ "" := by
  intro hc
  have h0 : n + 1 = 0 := replicate_guid_inj (n + 1) 0 (by rw [hc]; decide)
  omega

end ScenarioC5

/-- Witness for claim C5: the inexhaustible fresh source with
`batch_size = 1`, `max_articles = 2` yields exactly 2 articles in 2
calls. -/
theorem claim_C5_witness :
    (fetch_all_articles pagesC5 1 2).length = 2 ∧
      (fetch_all_articles_trace pagesC5 1 2).length = 2 :=
  claim_C5 pagesC5 1 2 (by decide) (by decide)
    (fun i t => by simp [pagesC5])
    (fun i t a ha => by
      rw [show pagesC5 i t = [artN (i + 1)] from rfl, List.mem_singleton] at ha
      subst ha
      exact ⟨_, rfl, replicate_guid_ne_empty i⟩)
    (fun i t => by simp [pagesC5, artN])
    (fun i t j u g hij hgi hgj => by
      simp only [pagesC5, artN, List.filterMap_cons, List.filterMap_nil,
        List.mem_singleton] at hgi hgj
      subst hgi
      exact hij (by
        have hinj := replicate_guid_inj (i + 1) (j + 1) hgj
        omega))

/-- Claim C6, confirmed: a non-empty page all of whose GUIDs are null or
already in `seen_guids` ends the loop at that iteration without
appending anything; the run returns the articles collected before that
page. -/
theorem claim_C6 (fetchPage : Nat → Option Int → List RawArticle)
    (batch_size max_articles fuel : Nat) (all : List RawArticle)
    (seen : List String) (t : Option Int) (call : Nat)
    (hlt : all.length < max_articles) (hne : fetchPage call t ≠ [])
    (hst : ∀ a ∈ fetchPage call t,
      a.GUID = none ∨ ∃ g, a.GUID = some g ∧ g ∈ seen) :
    fetchLoop fetchPage batch_size max_articles (fuel + 1) all seen t call
      = (all, [⟨t, fetchPage call t, all, seen⟩]) :=
  fetchLoop_stale_page fetchPage batch_size max_articles fuel all seen t call
    hlt hne hst

/-- Source that keeps answering the same already-seen page. -/
def pagesStale : Nat → Option Int → List RawArticle :=
  fun _ _ => [artB]

/-- Witness for claim C6: with `b` already seen, the repeated page
`[b]` stops the loop immediately, returning the previously collected
`[a]`. -/
theorem claim_C6_witness :
    fetchLoop pagesStale 1 5 3 [artA] ["b"] none 0
      = ([artA], [⟨none, [artB], [artA], ["b"]⟩]) :=
  claim_C6 pagesStale 1 5 2 [artA] ["b"] none 0 (by decide) (by decide)
    (by
      intro a ha
      rw [show pagesStale 0 none = [artB] from rfl, List.mem_singleton] at ha
      subst ha
      exact Or.inr ⟨"b", rfl, by simp⟩)

/-- Processing never adds rows: at most one per input record. -/
lemma process_article_data_le (fmtOk : Int → Bool) (l : List RawArticle) :
    (process_article_data fmtOk l).length ≤ l.length := by
  induction l with
  | nil => simp [process_article_data]
  | cons a t ih =>
    by_cases h : fmtOk (pubOn a) = true
    · simp only [process_article_data, if_pos h, List.length_cons]
      omega
    · simp only [process_article_data, if_neg h, List.length_cons]
      omega

/-- When every timestamp is accepted by the formatter, no record is
dropped: one row per record, in order. -/
lemma process_article_data_all_ok (fmtOk : Int → Bool) :
    ∀ l : List RawArticle, (∀ b ∈ l, fmtOk (pubOn b) = true) →
      process_article_data fmtOk l = l.map process_one := by
  intro l
  induction l with
  | nil => intro _; rfl
  | cons a t ih =>
    intro h
    rw [process_article_data, if_pos (h a (List.mem_cons_self _ _)),
      List.map_cons, ih fun b hb => h b (List.mem_cons_of_mem _ hb)]

/-- Every produced row is the normalization of one of the inputs. -/
lemma process_article_data_mem (fmtOk : Int → Bool) :
    ∀ l : List RawArticle, ∀ p ∈ process_article_data fmtOk l,
      ∃ b ∈ l, p = process_one b := by
  intro l
  induction l with
  | nil => intro p hp; simp [process_article_data] at hp
  | cons a t ih =>
    intro p hp
    rw [process_article_data] at hp
    by_cases h : fmtOk (pubOn a) = true
    · rw [if_pos h] at hp
      rcases List.mem_cons.mp hp with hEq | hmem
      · exact ⟨a, List.mem_cons_self _ _, hEq⟩
      · obtain ⟨b, hb, hpb⟩ := ih p hmem
        exact ⟨b, List.mem_cons_of_mem _ hb, hpb⟩
    · rw [if_neg h] at hp
      obtain ⟨b, hb, hpb⟩ := ih p hp
      exact ⟨b, List.mem_cons_of_mem _ hb, hpb⟩

/-- Claim C7, confirmed: normalization never raises — the only way a
record can be dropped is a timestamp outside the platform-dependent
`datetime.fromtimestamp` domain (abstracted as `fmtOk`, which accepts 0
per the spec's epoch-zero degenerate case), never a missing field. A
record with an absent or zero timestamp is therefore always processed,
to the epoch-zero `published_date` (the formatter receives the integer
0); when every timestamp is accepted, exactly one row per record is
produced, in order. Every successfully processed record is a
`NormalizedArticle` with every field populated by the documented
default when absent (ID→none, body/authors/keywords→empty string,
language→"EN", votes/score→0, sentiment→"NEUTRAL", status→"ACTIVE");
the empty mapping yields the all-defaults row. -/
theorem claim_C7 (fmtOk : Int → Bool) (l : List RawArticle) (a : RawArticle)
    (h0 : fmtOk 0 = true) :
    (process_article_data fmtOk l).length ≤ l.length ∧
      ((∀ b ∈ l, fmtOk (pubOn b) = true) →
        process_article_data fmtOk l = l.map process_one) ∧
      (∀ p ∈ process_article_data fmtOk l, ∃ b ∈ l, p = process_one b) ∧
      ((a.PUBLISHED_ON = none ∨ a.PUBLISHED_ON = some 0) →
        process_article_data fmtOk [a] = [process_one a] ∧
          (process_one a).published_date = 0) ∧
      (process_one a).id = a.ID ∧
      (process_one a).guid = a.GUID ∧
      (process_one a).content = a.BODY.getD "" ∧
      (process_one a).authors = a.AUTHORS.getD "" ∧
      (process_one a).keywords = a.KEYWORDS.getD "" ∧
      (process_one a).language = a.LANG.getD "EN" ∧
      (process_one a).upvotes = a.UPVOTES.getD 0 ∧
      (process_one a).downvotes = a.DOWNVOTES.getD 0 ∧
      (process_one a).score = a.SCORE.getD 0 ∧
      (process_one a).sentiment = a.SENTIMENT.getD "NEUTRAL" ∧
      (process_one a).status = a.STATUS.getD "ACTIVE" ∧
      (process_one a).published_date = a.PUBLISHED_ON.getD 0 ∧
      (process_one a).published_timestamp = a.PUBLISHED_ON ∧
      process_article_data fmtOk [{}] = [process_one {}] ∧
      process_one {} =
        { id := none, guid := none, title := none, subtitle := none,
          content := "", published_date := 0, published_timestamp := none,
          url := none, image_url := none, authors := "", source_id := none,
          keywords := "", language := "EN", upvotes := 0, downvotes := 0,
          score := 0, sentiment := "NEUTRAL", status := "ACTIVE" } := by
  refine ⟨process_article_data_le fmtOk l,
    process_article_data_all_ok fmtOk l,
    process_article_data_mem fmtOk l,
    ?_, rfl, rfl, rfl, rfl, rfl, rfl, rfl, rfl, rfl, rfl, rfl, rfl, rfl,
    ?_, rfl⟩
  · intro hz
    have hp0 : pubOn a = 0 := by
      rcases hz with h | h <;> simp [pubOn, h]
    constructor
    · rw [process_article_data, hp0, if_pos h0]
      rfl
    · exact hp0
  · exact process_article_data_all_ok fmtOk [{}]
      fun b hb => by rw [List.mem_singleton] at hb; subst hb; exact h0

/-- A concrete formatter-acceptance predicate for the witness: the
timestamps `datetime.fromtimestamp` accepts on a typical platform
(0 ≤ ts < 253402300800, i.e. dates before the year 10000). -/
def fmtOkW : Int → Bool :=
  fun v => decide (0 ≤ v ∧ v < 253402300800)

/-- Witness for claim C7 at a concrete acceptance predicate and a
concrete singleton input. -/
theorem claim_C7_witness :
    (process_article_data fmtOkW [artA]).length ≤ [artA].length ∧
      ((∀ b ∈ [artA], fmtOkW (pubOn b) = true) →
        process_article_data fmtOkW [artA] = [artA].map process_one) ∧
      (∀ p ∈ process_article_data fmtOkW [artA], ∃ b ∈ [artA], p = process_one b) ∧
      ((artA.PUBLISHED_ON = none ∨ artA.PUBLISHED_ON = some 0) →
        process_article_data fmtOkW [artA] = [process_one artA] ∧
          (process_one artA).published_date = 0) ∧
      (process_one artA).id = artA.ID ∧
      (process_one artA).guid = artA.GUID ∧
      (process_one artA).content = artA.BODY.getD "" ∧
      (process_one artA).authors = artA.AUTHORS.getD "" ∧
      (process_one artA).keywords = artA.KEYWORDS.getD "" ∧
      (process_one artA).language = artA.LANG.getD "EN" ∧
      (process_one artA).upvotes = artA.UPVOTES.getD 0 ∧
      (process_one artA).downvotes = artA.DOWNVOTES.getD 0 ∧
      (process_one artA).score = artA.SCORE.getD 0 ∧
      (process_one artA).sentiment = artA.SENTIMENT.getD "NEUTRAL" ∧
      (process_one artA).status = artA.STATUS.getD "ACTIVE" ∧
      (process_one artA).published_date = artA.PUBLISHED_ON.getD 0 ∧
      (process_one artA).published_timestamp = artA.PUBLISHED_ON ∧
      process_article_data fmtOkW [{}] = [process_one {}] ∧
      process_one {} =
        { id := none, guid := none, title := none, subtitle := none,
          content := "", published_date := 0, published_timestamp := none,
          url := none, image_url := none, authors := "", source_id := none,
          keywords := "", language := "EN", upvotes := 0, downvotes := 0,
          score := 0, sentiment := "NEUTRAL", status := "ACTIVE" } :=
  claim_C7 fmtOkW [artA] artA (by decide)

/-- Claim C8, confirmed: every failing transport outcome of one page
request — a raised exception, a non-200 status, a malformed body — is
converted inside `fetch_articles` to the empty list (the model is a
total function: nothing propagates), and an empty page received while
collecting merely ends `fetch_all_articles` early with the articles
collected so far. -/
theorem claim_C8 (api_key : Option String) (status : Nat)
    (dataField : Option (Option (List RawArticle)))
    (fetchPage : Nat → Option Int → List RawArticle)
    (batch_size max_articles fuel : Nat) (all : List RawArticle)
    (seen : List String) (t : Option Int) (call : Nat)
    (hstatus : status ≠ 200) (hemp : fetchPage call t = [])
    (hlt : all.length < max_articles) :
    fetch_articles api_key .exception = [] ∧
      fetch_articles api_key (.success status dataField) = [] ∧
      fetch_articles api_key (.success 200 none) = [] ∧
      fetchLoop fetchPage batch_size max_articles (fuel + 1) all seen t call
        = (all, [⟨t, [], all, seen⟩]) := by
  refine ⟨?_, ?_, ?_, ?_⟩
  · cases api_key <;> rfl
  · cases api_key with
    | none => rfl
    | some k => simp [fetch_articles, fetch_articles_run, check_api_key, hstatus]
  · cases api_key <;> rfl
  · exact fetchLoop_empty_page fetchPage batch_size max_articles fuel all seen
      t call hlt hemp

/-- The permanently-empty source. -/
def pagesEmpty : Nat → Option Int → List RawArticle :=
  fun _ _ => []

/-- Witness for claim C8 at a concrete failing transport and an
empty-page run. -/
theorem claim_C8_witness :
    fetch_articles (some "key") .exception = [] ∧
      fetch_articles (some "key") (.success 404 none) = [] ∧
      fetch_articles (some "key") (.success 200 none) = [] ∧
      fetchLoop pagesEmpty 1 1 1 [] [] none 0 = ([], [⟨none, [], [], []⟩]) :=
  claim_C8 (some "key") 404 none pagesEmpty 1 1 0 [] [] none 0 (by decide)
    rfl (by decide)

/-- Claim C9, confirmed: for every batch size ≥ 1, the predictor's
output is exactly the per-text model mapped over the input — same
length, same order, and independent of the batch size; the loop visits
exactly the contiguous slices `texts[i:i+batch_size]`, each of size at
most `batch_size`, with only the last one possibly smaller, and their
concatenation is the input. -/
theorem claim_C9 {α β : Type} (f : α → β) (batch_size : Nat) (texts : List α)
    (hbs : 1 ≤ batch_size) :
    predict_sentiment f batch_size texts = texts.map f ∧
      predict_sentiment f batch_size texts
        = ((chunksOf batch_size texts).map (List.map f)).flatten ∧
      (chunksOf batch_size texts).flatten = texts ∧
      (∀ c ∈ chunksOf batch_size texts, c.length ≤ batch_size) ∧
      (∀ c ∈ (chunksOf batch_size texts).dropLast, c.length = batch_size) ∧
      (predict_sentiment f batch_size texts).length = texts.length := by
  refine ⟨predictLoop_map f batch_size hbs texts.length texts le_rfl,
    chunksOfAux_eq_map f batch_size texts.length texts,
    chunksOfAux_flatten batch_size hbs texts.length texts le_rfl,
    fun c hc => chunksOfAux_size_le batch_size texts.length texts c hc,
    fun c hc => chunksOfAux_dropLast batch_size hbs texts.length texts le_rfl c hc,
    ?_⟩
  rw [show predict_sentiment f batch_size texts = texts.map f from
    predictLoop_map f batch_size hbs texts.length texts le_rfl]
  exact List.length_map texts f

/-- Witness for claim C9 at a concrete three-element input with batch
size 2. -/
theorem claim_C9_witness :
    predict_sentiment (fun n : Nat => n + 10) 2 [1, 2, 3]
        = [1, 2, 3].map (fun n : Nat => n + 10) ∧
      predict_sentiment (fun n : Nat => n + 10) 2 [1, 2, 3]
        = ((chunksOf 2 [1, 2, 3]).map (List.map (fun n : Nat => n + 10))).flatten ∧
      (chunksOf 2 [1, 2, 3]).flatten = [1, 2, 3] ∧
      (∀ c ∈ chunksOf 2 [1, 2, 3], c.length ≤ 2) ∧
      (∀ c ∈ (chunksOf 2 [1, 2, 3]).dropLast, c.length = 2) ∧
      (predict_sentiment (fun n : Nat => n + 10) 2 [1, 2, 3]).length
        = ([1, 2, 3] : List Nat).length :=
  claim_C9 (fun n : Nat => n + 10) 2 [1, 2, 3] (by decide)

/-- Claim C10, confirmed: with no API key, `fetch_articles` returns the
empty list before issuing any request (the run flag is `false` for
every transport outcome), so `fetch_all_articles` returns the empty
sequence and `create_dataset` returns `none` — indistinguishable at
this interface from an exhausted source, and the persistence sink is
never reached (it lives in the `some` branch only). -/
theorem claim_C10 (transport : Nat → Option Int → TransportOutcome)
    (fmtOk : Int → Bool) (batch_size max_articles : Nat) :
    (∀ t, fetch_articles_run none t = ([], false)) ∧
      fetch_all_articles (fun i ts => fetch_articles none (transport i ts))
        batch_size max_articles = [] ∧
      create_dataset fmtOk (fun i ts => fetch_articles none (transport i ts))
        batch_size max_articles = none := by
  have hrun : ∀ t : TransportOutcome, fetch_articles_run none t = ([], false) :=
    fun t => rfl
  have hfa : fetch_all_articles (fun i ts => fetch_articles none (transport i ts))
      batch_size max_articles = [] := by
    cases max_articles with
    | zero => simp [fetch_all_articles]
    | succ m =>
      rw [fetch_all_articles, fetchLoop_succ]
      simp [fetch_articles, hrun]
  exact ⟨hrun, hfa, by simp [create_dataset, hfa]⟩
